import Mathlib

/-!
Verification of the pixelpinch concurrent compression subsystem.

Shallow embedding of:
- the concurrency governor and the worker pool (src/lib/worker-pool.ts),
- the batch orchestration and per-item pipeline (src/lib/compression.ts),
- the compression worker message handler (src/workers/compression.worker.ts).

Buffers (ArrayBuffer) are modelled as lists of bytes, so byteLength is the
list length.  JavaScript numbers holding byte counts are modelled as Nat,
and the one fractional computation (percent saved) is carried out in exact
rational arithmetic with Math.round modelled as round-half-up, which is the
Mathlib round function on the rationals.
-/

namespace PixelPinch

/-! ## Concurrency governor (src/lib/worker-pool.ts, top of file) -/

/-- Navigator signals read by the governor.  hardwareConcurrency is 0 when
the browser reports undefined or 0 (both falsy in JS, both replaced by the
fallback 4).  mobileUserAgent is the outcome of the mobile user-agent
regular-expression test. -/
structure NavigatorInfo where
  hardwareConcurrency : Nat
  maxTouchPoints : Nat
  innerWidth : Nat
  mobileUserAgent : Bool
  deriving Repr, DecidableEq

/-- isMobileDevice from worker-pool.ts: without a navigator it is false;
otherwise the user-agent test, or touch capability combined with a small
screen. -/
def isMobileDevice : Option NavigatorInfo → Bool
  | none => false
  | some nav =>
    let hasTouch := nav.maxTouchPoints > 0
    let isSmallScreen := nav.innerWidth < 1024
    nav.mobileUserAgent || (hasTouch && isSmallScreen)

/-- getMaxParallelWorkers from worker-pool.ts: 4 without a navigator,
otherwise max 1 ((hardwareConcurrency or 4) - 1). -/
def getMaxParallelWorkers : Option NavigatorInfo → Nat
  | none => 4
  | some nav =>
    max 1 ((if nav.hardwareConcurrency = 0 then 4 else nav.hardwareConcurrency) - 1)

/-- getDefaultParallelWorkers from worker-pool.ts: mobile devices cap the
default at 3, desktops default to the maximum. -/
def getDefaultParallelWorkers (nav : Option NavigatorInfo) : Nat :=
  let m := getMaxParallelWorkers nav
  if isMobileDevice nav then min 3 m else m

/-- Maximum-parallelism computation as the specification words it for claim
C7: cores = max 1 (hardwareConcurrency - 1), then device-memory tiering
(at most 2 units: tier low, cap 1; at most 4: tier medium, cap
min 2 (cores - 1); else tier high, cap min 8 (cores - 1) on desktop and
min 3 (cores - 1) on mobile).  This definition follows the claim wording,
for comparison with getMaxParallelWorkers; the source applies no such
tiering. -/
def specTieredMaxParallelism (hardwareConcurrency deviceMemory : Nat)
    (mobile : Bool) : Nat :=
  let cores := max 1 (hardwareConcurrency - 1)
  if deviceMemory ≤ 2 then 1
  else if deviceMemory ≤ 4 then min 2 (cores - 1)
  else if mobile then min 3 (cores - 1)
  else min 8 (cores - 1)

/-! ## Shared data model (message contract and item state) -/

inductive FileStatus
  | pending
  | processing
  | done
  | error
  deriving Repr, DecidableEq

inductive OutputFormat
  | webp
  | jpeg
  deriving Repr, DecidableEq

structure CompressionSettings where
  quality : Nat
  format : OutputFormat
  parallelWorkers : Option Nat
  deriving Repr, DecidableEq

/-- ImageFile as used by src/lib/compression.ts.  The original File handle
is modelled as an optional opaque name (none after the success path of the
pipeline releases it); the compressed Blob is modelled by its bytes. -/
structure ImageFile where
  id : String
  file : Option String
  name : String
  originalSize : Nat
  status : FileStatus
  compressedSize : Option Nat
  compressedBlob : Option (List Nat)
  percentSaved : Option ℤ
  error : Option String
  deriving Repr, DecidableEq

inductive ResponseStatus
  | success
  | error
  deriving Repr, DecidableEq

/-- CompressionResponse: the result payload a worker posts back. -/
structure CompressionResponse where
  id : String
  status : ResponseStatus
  compressedData : Option (List Nat)
  originalSize : Nat
  compressedSize : Option Nat
  error : Option String
  deriving Repr, DecidableEq

/-- CompressionRequest: the task payload sent to a worker. -/
structure CompressionRequest where
  id : String
  imageData : List Nat
  fileName : String
  mimeType : String
  settings : CompressionSettings
  deriving Repr, DecidableEq

/-! ## Per-item pipeline (src/lib/compression.ts) -/

/-- calculatePercentSaved from compression.ts: 0 when the original size is
0, otherwise Math.round (((original - compressed) / original) * 100) in
exact rational arithmetic (Math.round is round half up, the Mathlib round
on the rationals). -/
def calculatePercentSaved (original compressed : Nat) : ℤ :=
  if original = 0 then 0
  else round ((((original : ℚ) - (compressed : ℚ)) / (original : ℚ)) * 100)

/-- COMPRESSION_TIMEOUT_MS from compression.ts. -/
def COMPRESSION_TIMEOUT_MS : Nat := 60000

/-- The timeout error message built in compressFileWithWorker. -/
def timeoutMessage : String :=
  "Compression timed out after " ++ toString (COMPRESSION_TIMEOUT_MS / 1000) ++ " seconds"

/-- withTimeout from compression.ts, denotationally: the race of the pool
promise against the timeout timer resolves to the response when the
response arrives first, and rejects with the given message when the timer
fires first.  The timedOut flag records which branch of the race won. -/
def withTimeout (timedOut : Bool) (errorMessage : String) (response : α) :
    Except String α :=
  if timedOut then Except.error errorMessage else Except.ok response

/-- JavaScript string-or fallback: response.error or a default, where the
empty string is falsy. -/
def jsOrString (s : Option String) (fallback : String) : String :=
  match s with
  | some v => if v = "" then fallback else v
  | none => fallback

/-- The catch block of compressFileWithWorker: spread the original item,
set status error and the message.  All original metadata (id, name, file
handle, original size) is preserved, so the item stays retryable. -/
def markError (imageFile : ImageFile) (msg : String) : ImageFile :=
  { imageFile with status := FileStatus.error, error := some msg }

/-- Strip the last extension: the regular expression replacement
name.replace of a dot followed by one or more non-dot characters at the
end of the string with the empty string.  The match exists exactly when
the string contains a dot with a nonempty run of non-dot characters after
the last dot. -/
def stripLastExtension (name : String) : String :=
  match name.toList.reverse.span (fun c => c ≠ '.') with
  | (_, []) => name
  | (sfx, _dot :: base) => if sfx.isEmpty then name else String.mk base.reverse

/-- Per-item effects of one run of compressFileWithWorker that are resolved
outside the function: the outcome of prepareFile (HEIC conversion and the
ArrayBuffer read, either the prepared bytes and mime type or a thrown
message), the response the pool promise would yield, and whether the 60 s
timer fired before that response. -/
structure ItemEnv where
  prep : Except String (List Nat × String)
  response : CompressionResponse
  timedOut : Bool
  deriving Repr

/-- compressFileWithWorker from compression.ts.  The function marks the
item processing, prepares the bytes, submits to the pool under the 60 s
timeout, and either materializes a done item or catches any failure
(preparation throw, timeout rejection, error-status response) into an
error-status item.  The non-null assertion on response.compressedSize is
modelled as getD 0; the worker only produces success responses with the
size present (see compressImage below), so the default is never taken for
responses the pool can actually deliver. -/
def compressFileWithWorker (imageFile : ImageFile)
    (settings : CompressionSettings) (env : ItemEnv) : ImageFile :=
  match env.prep with
  | Except.error msg => markError imageFile msg
  | Except.ok _ =>
    match withTimeout env.timedOut timeoutMessage env.response with
    | Except.error msg => markError imageFile msg
    | Except.ok response =>
      if response.status = ResponseStatus.error then
        markError imageFile (jsOrString response.error "Compression failed")
      else
        let extension := if settings.format = OutputFormat.webp then ".webp" else ".jpg"
        let baseName := stripLastExtension imageFile.name
        { id := imageFile.id
          file := none
          name := baseName ++ extension
          originalSize := imageFile.originalSize
          status := FileStatus.done
          compressedSize := response.compressedSize
          compressedBlob := response.compressedData
          percentSaved := some (calculatePercentSaved imageFile.originalSize
            (response.compressedSize.getD 0))
          error := none }

/-- compressFiles from compression.ts.  The body of compressFileWithWorker
is wrapped in a try/catch converting every failure into an error-status
item, so each mapped promise fulfills; the rejected branch of the
Promise.allSettled extraction (which would build the same error-status
item from the input at that index) is unreachable, and the batch result is
the index-wise map of the per-item pipeline over the inputs paired with
their per-item environments. -/
def compressFiles (files : List ImageFile) (settings : CompressionSettings)
    (envs : List ItemEnv) : List ImageFile :=
  (files.zip envs).map (fun fe => compressFileWithWorker fe.1 settings fe.2)

/-! ## Compression worker (src/workers/compression.worker.ts) -/

/-- Worker-side mutable state.  wasmBaseUrl is the empty string until a
successful init message; the per-codec lazy-initialization bookkeeping
lives behind the abstracted codec capability. -/
structure WorkerState where
  wasmBaseUrl : String
  deriving Repr, DecidableEq

inductive WorkerMessage
  | init (baseUrl : String)
  | compress (payload : CompressionRequest)
  deriving Repr

inductive WorkerResponse
  | ready
  | initError (message : String)
  | result (payload : CompressionResponse)
  deriving Repr, DecidableEq

/-- The decode-then-encode body of compressImage.  The pixel codecs are an
external capability: the codec oracle maps a request to either compressed
bytes or a failure message, and compressImage wraps its outcome into a
CompressionResponse exactly as the source does (success responses carry
the compressed bytes and their length, error responses carry the message;
both echo the request id and the input byte length). -/
def compressImage (codec : CompressionRequest → Except String (List Nat))
    (request : CompressionRequest) : CompressionResponse :=
  match codec request with
  | Except.ok compressed =>
    { id := request.id
      status := ResponseStatus.success
      compressedData := some compressed
      originalSize := request.imageData.length
      compressedSize := some compressed.length
      error := none }
  | Except.error msg =>
    { id := request.id
      status := ResponseStatus.error
      compressedData := none
      originalSize := request.imageData.length
      compressedSize := none
      error := some msg }

/-- The self.onmessage handler of the worker, returning the new worker
state and the list of messages posted back.  initCodecs only records the
WASM base URL (there is no eager codec loading), so the init branch always
replies ready; a compress message received while wasmBaseUrl is still
unset is answered by an error result without consulting the codecs. -/
def handleMessage (codec : CompressionRequest → Except String (List Nat))
    (st : WorkerState) (msg : WorkerMessage) : WorkerState × List WorkerResponse :=
  match msg with
  | WorkerMessage.init baseUrl =>
    ({ wasmBaseUrl := baseUrl ++ "/wasm" }, [WorkerResponse.ready])
  | WorkerMessage.compress payload =>
    if st.wasmBaseUrl = "" then
      (st, [WorkerResponse.result
        { id := payload.id
          status := ResponseStatus.error
          compressedData := none
          originalSize := payload.imageData.length
          compressedSize := none
          error := some "Worker not initialized. Please refresh the page." }])
    else
      (st, [WorkerResponse.result (compressImage codec payload)])

/-! ## Async semaphore (src/lib/compression.ts in the worker-pool variant)

The semaphore state carries the two source fields (permits, waitQueue)
plus ghost observables: each acquire call is numbered by an arrival ticket
(nextTicket), the waitQueue stores the tickets of blocked acquirers, and
holders records the tickets currently holding a permit. -/

structure AsyncSemaphore where
  permits : Nat
  waitQueue : List Nat
  holders : List Nat
  nextTicket : Nat
  deriving Repr, DecidableEq

/-- acquire: with a permit available, take it and run; otherwise push the
ticket onto the wait queue. -/
def semAcquire (s : AsyncSemaphore) : AsyncSemaphore :=
  if s.permits > 0 then
    { s with permits := s.permits - 1
             holders := s.holders ++ [s.nextTicket]
             nextTicket := s.nextTicket + 1 }
  else
    { s with waitQueue := s.waitQueue ++ [s.nextTicket]
             nextTicket := s.nextTicket + 1 }

/-- release by the holder with ticket h: shift the wait queue and hand the
permit directly to the dequeued waiter if any, otherwise return the permit
to the counter. -/
def semRelease (s : AsyncSemaphore) (h : Nat) : AsyncSemaphore :=
  match s.waitQueue with
  | next :: rest =>
    { s with waitQueue := rest
             holders := s.holders.erase h ++ [next] }
  | [] =>
    { s with permits := s.permits + 1
             holders := s.holders.erase h }

/-- Reachable semaphore states: start with k permits, interleave acquire
calls and releases by current permit holders. -/
inductive SemReachable (k : Nat) : AsyncSemaphore → Prop
  | init : SemReachable k ⟨k, [], [], 0⟩
  | acquire {s : AsyncSemaphore} : SemReachable k s → SemReachable k (semAcquire s)
  | release {s : AsyncSemaphore} {h : Nat} :
      SemReachable k s → h ∈ s.holders → SemReachable k (semRelease s h)

/-! ## Pool initialization (WorkerPool.initialize, src/lib/worker-pool.ts)

The initialize method checks the isInitialized flag, spawns maxWorkers
createWorker promises, awaits them all, and only then publishes the
available set and raises the flag.  The model splits one call into the
synchronous guard-and-spawn step (callStart) and the resumption after the
await (callFinish); handshake is one worker completing its ready message.
createdContexts counts every Worker ever constructed. -/

structure PoolInitState where
  isInitialized : Bool
  pendingCalls : Nat
  createdContexts : Nat
  readyContexts : Nat
  availableCount : Nat
  deriving Repr, DecidableEq

inductive InitEvent
  | callStart
  | handshake
  | callFinish
  deriving Repr, DecidableEq

/-- One scheduling step of initialize for a pool configured with N
contexts.  callStart returns immediately when isInitialized is already
set; otherwise it spawns N contexts and leaves the call pending at the
await.  callFinish resumes a pending call: it publishes the available set
(the N workers of that call) and sets the flag. -/
def initStep (N : Nat) (s : PoolInitState) : InitEvent → PoolInitState
  | InitEvent.callStart =>
    if s.isInitialized then s
    else { s with pendingCalls := s.pendingCalls + 1
                  createdContexts := s.createdContexts + N }
  | InitEvent.handshake =>
    { s with readyContexts := s.readyContexts + 1 }
  | InitEvent.callFinish =>
    { s with pendingCalls := s.pendingCalls - 1
             isInitialized := true
             availableCount := N }

/-- Reachable states of the initialization protocol: handshakes only for
spawned-but-not-ready contexts, and a call only resumes when it has a
pending frame and every spawned context has completed its handshake. -/
inductive InitReachable (N : Nat) : PoolInitState → Prop
  | init : InitReachable N ⟨false, 0, 0, 0, 0⟩
  | callStart {s : PoolInitState} :
      InitReachable N s → InitReachable N (initStep N s InitEvent.callStart)
  | handshake {s : PoolInitState} :
      InitReachable N s → s.readyContexts < s.createdContexts →
      InitReachable N (initStep N s InitEvent.handshake)
  | callFinish {s : PoolInitState} :
      InitReachable N s → 0 < s.pendingCalls →
      s.readyContexts = s.createdContexts →
      InitReachable N (initStep N s InitEvent.callFinish)

/-- Reachable states when initialize calls do not overlap: callStart fires
only while no other call is pending at its await. -/
inductive InitReachableSeq (N : Nat) : PoolInitState → Prop
  | init : InitReachableSeq N ⟨false, 0, 0, 0, 0⟩
  | callStart {s : PoolInitState} :
      InitReachableSeq N s → s.pendingCalls = 0 →
      InitReachableSeq N (initStep N s InitEvent.callStart)
  | handshake {s : PoolInitState} :
      InitReachableSeq N s → s.readyContexts < s.createdContexts →
      InitReachableSeq N (initStep N s InitEvent.handshake)
  | callFinish {s : PoolInitState} :
      InitReachableSeq N s → 0 < s.pendingCalls →
      s.readyContexts = s.createdContexts →
      InitReachableSeq N (initStep N s InitEvent.callFinish)

/-! ## Worker pool dispatch and result routing (class WorkerPool)

Workers are identified by numbers.  The resolver of the promise created by
the i-th compress call is identified by the ghost callback number i; the
ghost field submitted lists the request ids in submission order (so
callback i belongs to the submit with id submitted[i]), and the ghost field
delivered logs every (callback, response) invocation performed by
handleWorkerMessage.  pendingTasks mirrors the source Map from task id to
the executing worker and the callback. -/

structure QueuedTask where
  request : CompressionRequest
  callback : Nat
  deriving Repr

structure PoolState where
  availableWorkers : List Nat
  taskQueue : List QueuedTask
  pendingTasks : List (String × Nat × Nat)
  submitted : List String
  delivered : List (Nat × CompressionResponse)

/-- Map.get on the pending-task map: first entry with the key. -/
def mapGet (m : List (String × Nat × Nat)) (key : String) : Option (Nat × Nat) :=
  (m.find? fun e => e.1 == key).map (fun e => e.2)

/-- Map.set on the pending-task map: replace the entry with the key when
present, otherwise append. -/
def mapSet (m : List (String × Nat × Nat)) (key : String) (v : Nat × Nat) :
    List (String × Nat × Nat) :=
  if m.any (fun e => e.1 == key) then
    m.map (fun e => if e.1 == key then (key, v) else e)
  else m ++ [(key, v)]

/-- Map.delete on the pending-task map: drop the first entry with the key. -/
def mapDelete (m : List (String × Nat × Nat)) (key : String) :
    List (String × Nat × Nat) :=
  m.eraseP (fun e => e.1 == key)

/-- processNextTask: return unless both a queued task and an available
worker exist; then pop the most recently freed worker (JS array pop takes
the last element), shift the oldest queued task, record the in-flight
entry, and post the task to the worker. -/
def processNextTask (p : PoolState) : PoolState :=
  match p.taskQueue, p.availableWorkers.getLast? with
  | [], _ => p
  | _, none => p
  | task :: rest, some worker =>
    { p with
      availableWorkers := p.availableWorkers.dropLast
      taskQueue := rest
      pendingTasks := mapSet p.pendingTasks task.request.id (worker, task.callback) }

/-- compress: push the request with its freshly created resolver onto the
task queue, then attempt a dispatch. -/
def compress (p : PoolState) (request : CompressionRequest) : PoolState :=
  processNextTask
    { p with
      taskQueue := p.taskQueue ++ [⟨request, p.submitted.length⟩]
      submitted := p.submitted ++ [request.id] }

/-- handleWorkerMessage for a result message: look up the in-flight entry
by the result id, resolve that entry's callback and delete the entry when
found (an absent id is dropped), then return the worker to the available
set and attempt the next dispatch. -/
def handleWorkerMessage (p : PoolState) (worker : Nat)
    (message : CompressionResponse) : PoolState :=
  let p1 :=
    match mapGet p.pendingTasks message.id with
    | some wcb =>
      { p with delivered := p.delivered ++ [(wcb.2, message)]
               pendingTasks := mapDelete p.pendingTasks message.id }
    | none => p
  processNextTask { p1 with availableWorkers := p1.availableWorkers ++ [worker] }

/-- The pool state right after initialize: every worker available, all
bookkeeping empty. -/
def initPool (workers : List Nat) : PoolState :=
  { availableWorkers := workers
    taskQueue := []
    pendingTasks := []
    submitted := []
    delivered := [] }

/-- Reachable pool states under any interleaving of submissions and
completions.  A completion event is a worker posting back the result of
the task it is executing: the worker code echoes the request id into the
result (both on success and on failure), so the event is enabled exactly
when the in-flight map holds the result id bound to that worker. -/
inductive PoolReachable (workers : List Nat) : PoolState → Prop
  | init : PoolReachable workers (initPool workers)
  | submit {p : PoolState} (request : CompressionRequest) :
      PoolReachable workers p → PoolReachable workers (compress p request)
  | complete {p : PoolState} (worker : Nat) (message : CompressionResponse)
      (cb : Nat) :
      PoolReachable workers p →
      mapGet p.pendingTasks message.id = some (worker, cb) →
      PoolReachable workers (handleWorkerMessage p worker message)

/-- The callback numbers currently bookkept by the pool, in the order
queue, in-flight, delivered. -/
def bookedCallbacks (p : PoolState) : List Nat :=
  p.taskQueue.map (fun t => t.callback) ++
    p.pendingTasks.map (fun e => e.2.2) ++
    p.delivered.map (fun d => d.1)

/-! ## Invariants used in the proofs -/

/-- Inductive invariant of the semaphore: the permit counter plus the
holders account for all k permits, the wait queue lists tickets in
strictly increasing arrival order below the next ticket, and a nonempty
wait queue means the counter is exhausted. -/
def SemInv (k : Nat) (s : AsyncSemaphore) : Prop :=
  s.permits + s.holders.length = k ∧
  List.Pairwise (· < ·) s.waitQueue ∧
  (∀ t ∈ s.waitQueue, t < s.nextTicket) ∧
  (s.waitQueue ≠ [] → s.permits = 0)

/-- Inductive invariant of the sequential initialization protocol. -/
def InitSeqInv (N : Nat) (s : PoolInitState) : Prop :=
  s.pendingCalls ≤ 1 ∧
  (s.isInitialized = false → s.createdContexts = N * s.pendingCalls ∧
    s.availableCount = 0) ∧
  (s.isInitialized = true → s.pendingCalls = 0 ∧ s.createdContexts = N ∧
    s.availableCount = N ∧ s.readyContexts = s.createdContexts) ∧
  s.readyContexts ≤ s.createdContexts

/-- Inductive invariant of the worker pool, for submissions with pairwise
distinct request ids (the data model assigns each item a unique id).  The
callback numbers bookkept across queue, in-flight map and delivery log are
a permutation of all submission numbers (each submission is accounted for
exactly once); every bookkeeping entry records the request id of its
submission; available workers and in-flight workers are pool workers,
without duplicates, and disjoint. -/
structure PoolInv (workers : List Nat) (p : PoolState) : Prop where
  perm : List.Perm (bookedCallbacks p) (List.range p.submitted.length)
  queueIds : ∀ t ∈ p.taskQueue, p.submitted[t.callback]? = some t.request.id
  pendingIds : ∀ e ∈ p.pendingTasks, p.submitted[e.2.2]? = some e.1
  deliveredIds : ∀ d ∈ p.delivered, p.submitted[d.1]? = some d.2.id
  availMem : ∀ w ∈ p.availableWorkers, w ∈ workers
  pendingMem : ∀ e ∈ p.pendingTasks, e.2.1 ∈ workers
  availNodup : p.availableWorkers.Nodup
  pendingWorkersNodup : (p.pendingTasks.map (fun e => e.2.1)).Nodup
  disjoint : ∀ w ∈ p.availableWorkers, ∀ e ∈ p.pendingTasks, e.2.1 ≠ w

/-! ## Helper lemmas on the per-item pipeline -/

/-- Preparation failure is caught into an error-status item. -/
theorem compressFileWithWorker_prepError (imageFile : ImageFile)
    (settings : CompressionSettings) (env : ItemEnv) (msg : String)
    (hp : env.prep = Except.error msg) :
    compressFileWithWorker imageFile settings env = markError imageFile msg := by
  unfold compressFileWithWorker
  rw [hp]

/-- A fired timeout is caught into an error-status item carrying the
timeout message. -/
theorem compressFileWithWorker_timeout (imageFile : ImageFile)
    (settings : CompressionSettings) (env : ItemEnv) (dat : List Nat) (mime : String)
    (hp : env.prep = Except.ok (dat, mime)) (ht : env.timedOut = true) :
    compressFileWithWorker imageFile settings env = markError imageFile timeoutMessage := by
  unfold compressFileWithWorker
  rw [hp, ht]
  rfl

/-- An error-status response is caught into an error-status item carrying
the response message (or the fallback when the message is missing or the
empty string). -/
theorem compressFileWithWorker_responseError (imageFile : ImageFile)
    (settings : CompressionSettings) (env : ItemEnv) (dat : List Nat) (mime : String)
    (hp : env.prep = Except.ok (dat, mime)) (ht : env.timedOut = false)
    (hs : env.response.status = ResponseStatus.error) :
    compressFileWithWorker imageFile settings env =
      markError imageFile (jsOrString env.response.error "Compression failed") := by
  unfold compressFileWithWorker
  rw [hp, ht]
  simp [withTimeout, hs]

/-- A success response within the deadline materializes the done item. -/
theorem compressFileWithWorker_success (imageFile : ImageFile)
    (settings : CompressionSettings) (env : ItemEnv) (dat : List Nat) (mime : String)
    (hp : env.prep = Except.ok (dat, mime)) (ht : env.timedOut = false)
    (hs : env.response.status = ResponseStatus.success) :
    compressFileWithWorker imageFile settings env =
      { id := imageFile.id
        file := none
        name := stripLastExtension imageFile.name ++
          (if settings.format = OutputFormat.webp then ".webp" else ".jpg")
        originalSize := imageFile.originalSize
        status := FileStatus.done
        compressedSize := env.response.compressedSize
        compressedBlob := env.response.compressedData
        percentSaved := some (calculatePercentSaved imageFile.originalSize
          (env.response.compressedSize.getD 0))
        error := none } := by
  unfold compressFileWithWorker
  rw [hp, ht]
  simp [withTimeout, hs]

/-- The pipeline always lands in one of the two terminal states. -/
theorem compressFileWithWorker_terminal (imageFile : ImageFile)
    (settings : CompressionSettings) (env : ItemEnv) :
    (compressFileWithWorker imageFile settings env).status = FileStatus.done ∨
      (compressFileWithWorker imageFile settings env).status = FileStatus.error := by
  rcases hp : env.prep with msg | dm
  · right; rw [compressFileWithWorker_prepError imageFile settings env msg hp]; rfl
  · rcases ht : env.timedOut with _ | _
    · rcases hs : env.response.status with _ | _
      · left
        rw [compressFileWithWorker_success imageFile settings env dm.1 dm.2 (by rw [hp]) ht hs]
      · right
        rw [compressFileWithWorker_responseError imageFile settings env dm.1 dm.2 (by rw [hp]) ht hs]
        rfl
    · right
      rw [compressFileWithWorker_timeout imageFile settings env dm.1 dm.2 (by rw [hp]) ht]
      rfl

/-- The pipeline preserves the item identifier. -/
theorem compressFileWithWorker_id (imageFile : ImageFile)
    (settings : CompressionSettings) (env : ItemEnv) :
    (compressFileWithWorker imageFile settings env).id = imageFile.id := by
  rcases hp : env.prep with msg | dm
  · rw [compressFileWithWorker_prepError imageFile settings env msg hp]; rfl
  · rcases ht : env.timedOut with _ | _
    · rcases hs : env.response.status with _ | _
      · rw [compressFileWithWorker_success imageFile settings env dm.1 dm.2 (by rw [hp]) ht hs]
      · rw [compressFileWithWorker_responseError imageFile settings env dm.1 dm.2 (by rw [hp]) ht hs]
        rfl
    · rw [compressFileWithWorker_timeout imageFile settings env dm.1 dm.2 (by rw [hp]) ht]
      rfl

/-! ## Claim C7 (corrected): concurrency governor -/

/-- C7 counterexample: on a desktop reporting 8 hardware cores and a
device-memory signal of 2 units the claim demands tier low with cap 1, but
the source computes max 1 (8 - 1) = 7.  getMaxParallelWorkers reads no
device-memory signal at all. -/
theorem c7_counterexample :
    getMaxParallelWorkers (some ⟨8, 0, 1920, false⟩) = 7 ∧
    specTieredMaxParallelism 8 2 false = 1 ∧ (7 : Nat) ≠ 1 :=
  ⟨rfl, rfl, by decide⟩

/-- C7 (amended): the maximum-parallelism computation is
max 1 (hardwareConcurrency - 1) with no device-memory tiering: the
maximum depends on hardwareConcurrency alone, and the mobile/desktop
distinction only lowers the default (min 3 max on mobile), never the
maximum. -/
theorem c7_governor_no_tiering (nav : NavigatorInfo)
    (h : nav.hardwareConcurrency ≠ 0) :
    getMaxParallelWorkers (some nav) = max 1 (nav.hardwareConcurrency - 1) ∧
    (∀ nav₂ : NavigatorInfo, nav₂.hardwareConcurrency = nav.hardwareConcurrency →
      getMaxParallelWorkers (some nav₂) = getMaxParallelWorkers (some nav)) ∧
    getDefaultParallelWorkers (some nav) =
      (if isMobileDevice (some nav) then min 3 (getMaxParallelWorkers (some nav))
       else getMaxParallelWorkers (some nav)) := by
  refine ⟨by simp [getMaxParallelWorkers, h], ?_, ?_⟩
  · intro nav₂ h₂
    simp [getMaxParallelWorkers, h₂]
  · simp [getDefaultParallelWorkers]

/-- Witness for the amended C7 on a concrete 8-core desktop device. -/
theorem c7_governor_no_tiering_witness :
    getMaxParallelWorkers (some ⟨8, 0, 1920, false⟩) = max 1 (8 - 1) ∧
    (∀ nav₂ : NavigatorInfo, nav₂.hardwareConcurrency = 8 →
      getMaxParallelWorkers (some nav₂) = getMaxParallelWorkers (some ⟨8, 0, 1920, false⟩)) ∧
    getDefaultParallelWorkers (some ⟨8, 0, 1920, false⟩) =
      (if isMobileDevice (some ⟨8, 0, 1920, false⟩)
       then min 3 (getMaxParallelWorkers (some ⟨8, 0, 1920, false⟩))
       else getMaxParallelWorkers (some ⟨8, 0, 1920, false⟩)) :=
  c7_governor_no_tiering ⟨8, 0, 1920, false⟩ (by decide)

/-! ## Claim C8 (confirmed): percent saved -/

/-- C8: calculatePercentSaved is round (((original - compressed) /
original) * 100) for a nonzero original and 0 for a zero original, and
every item the pipeline marks done carries percentSaved equal to this
value computed from its original and compressed byte sizes. -/
theorem c8_percent_saved (imageFile : ImageFile) (settings : CompressionSettings)
    (env : ItemEnv) (dat : List Nat) (mime : String) (n : Nat)
    (hp : env.prep = Except.ok (dat, mime)) (ht : env.timedOut = false)
    (hs : env.response.status = ResponseStatus.success)
    (hn : env.response.compressedSize = some n) :
    (compressFileWithWorker imageFile settings env).status = FileStatus.done ∧
    (compressFileWithWorker imageFile settings env).compressedSize = some n ∧
    (compressFileWithWorker imageFile settings env).percentSaved =
      some (calculatePercentSaved imageFile.originalSize n) ∧
    (∀ o c : Nat, o ≠ 0 →
      calculatePercentSaved o c = round ((((o : ℚ) - (c : ℚ)) / (o : ℚ)) * 100)) ∧
    (∀ c : Nat, calculatePercentSaved 0 c = 0) := by
  rw [compressFileWithWorker_success imageFile settings env dat mime hp ht hs]
  refine ⟨rfl, hn, ?_, ?_, ?_⟩
  · simp [hn]
  · intro o c ho
    simp [calculatePercentSaved, ho]
  · intro c
    simp [calculatePercentSaved]

/-- Witness for C8 on the concrete scenario of the specification: original
1000000 bytes compressed to 400000 bytes gives percentSaved 60. -/
theorem c8_percent_saved_witness :
    (compressFileWithWorker
        ⟨"f1", some "blob", "photo.png", 1000000, FileStatus.pending, none, none, none, none⟩
        ⟨80, OutputFormat.jpeg, some 2⟩
        ⟨Except.ok ([1, 2, 3], "image/png"),
         ⟨"f1", ResponseStatus.success, some [9, 9], 3, some 400000, none⟩, false⟩).percentSaved =
      some (calculatePercentSaved 1000000 400000) ∧
    calculatePercentSaved 1000000 400000 = 60 := by
  constructor
  · exact (c8_percent_saved
      ⟨"f1", some "blob", "photo.png", 1000000, FileStatus.pending, none, none, none, none⟩
      ⟨80, OutputFormat.jpeg, some 2⟩
      ⟨Except.ok ([1, 2, 3], "image/png"),
       ⟨"f1", ResponseStatus.success, some [9, 9], 3, some 400000, none⟩, false⟩
      [1, 2, 3] "image/png" 400000 rfl rfl rfl rfl).2.2.1
  · norm_num [calculatePercentSaved]

/-! ## Claim C9 (corrected): sign of percent saved -/

/-- C9 counterexample: a successful compression that enlarges the input
(1000 bytes to 2000 bytes) is marked done with percentSaved -100, so
0 ≤ percentSaved does not hold for every successful compression. -/
theorem c9_counterexample :
    (compressFileWithWorker
        ⟨"f2", some "blob", "pic.png", 1000, FileStatus.pending, none, none, none, none⟩
        ⟨80, OutputFormat.jpeg, none⟩
        ⟨Except.ok ([0], "image/png"),
         ⟨"f2", ResponseStatus.success, some [1], 1, some 2000, none⟩, false⟩).status =
      FileStatus.done ∧
    (compressFileWithWorker
        ⟨"f2", some "blob", "pic.png", 1000, FileStatus.pending, none, none, none, none⟩
        ⟨80, OutputFormat.jpeg, none⟩
        ⟨Except.ok ([0], "image/png"),
         ⟨"f2", ResponseStatus.success, some [1], 1, some 2000, none⟩, false⟩).percentSaved =
      some (-100) ∧
    ¬ (0 : ℤ) ≤ -100 := by
  have hv : calculatePercentSaved 1000 2000 = -100 := by
    unfold calculatePercentSaved
    rw [if_neg (by norm_num)]
    rw [show ((((1000 : Nat) : ℚ) - ((2000 : Nat) : ℚ)) / ((1000 : Nat) : ℚ)) * 100 =
      ((-100 : ℤ) : ℚ) by push_cast; norm_num]
    rw [round_intCast]
  refine ⟨rfl, ?_, by decide⟩
  show some (calculatePercentSaved 1000 2000) = some (-100)
  rw [hv]

/-- Nonnegative percent saved when compression does not enlarge. -/
theorem calculatePercentSaved_nonneg (o c : Nat) (hc : c ≤ o) :
    0 ≤ calculatePercentSaved o c := by
  unfold calculatePercentSaved
  by_cases ho : o = 0
  · simp [ho]
  · rw [if_neg ho]
    rw [round_eq]
    refine Int.le_floor.mpr ?_
    push_cast
    have h0 : (0 : ℚ) < (o : ℚ) := by
      exact_mod_cast Nat.pos_of_ne_zero ho
    have h1 : (0 : ℚ) ≤ ((o : ℚ) - (c : ℚ)) / (o : ℚ) :=
      div_nonneg (sub_nonneg.mpr (by exact_mod_cast hc)) h0.le
    nlinarith [h1]

/-- Nonpositive percent saved when compression enlarges or keeps size. -/
theorem calculatePercentSaved_nonpos (o c : Nat) (hc : o ≤ c) :
    calculatePercentSaved o c ≤ 0 := by
  unfold calculatePercentSaved
  by_cases ho : o = 0
  · simp [ho]
  · rw [if_neg ho]
    rw [round_eq]
    have h0 : (0 : ℚ) < (o : ℚ) := by
      exact_mod_cast Nat.pos_of_ne_zero ho
    have h1 : ((o : ℚ) - (c : ℚ)) / (o : ℚ) ≤ 0 := by
      apply div_nonpos_of_nonpos_of_nonneg
      · exact sub_nonpos.mpr (by exact_mod_cast hc)
      · exact h0.le
    have h2 : (((o : ℚ) - (c : ℚ)) / (o : ℚ)) * 100 ≤ 0 := by nlinarith [h1]
    have h3 : ⌊(((o : ℚ) - (c : ℚ)) / (o : ℚ)) * 100 + 1 / 2⌋ < 1 := by
      refine Int.floor_lt.mpr ?_
      push_cast
      linarith
    omega

/-- C9 (amended): for a successful compression that does not enlarge the
input, 0 ≤ percentSaved; and whenever compressedSize is at least
originalSize the reported percentSaved is nonpositive, never clamped to a
positive value — in particular every done item produced from a response
whose compressed size is at least the original size carries a nonpositive
percentSaved. -/
theorem c9_percent_saved_sign (o c : Nat) :
    (c ≤ o → 0 ≤ calculatePercentSaved o c) ∧
    (o ≤ c → calculatePercentSaved o c ≤ 0) ∧
    (∀ (imageFile : ImageFile) (settings : CompressionSettings) (env : ItemEnv)
        (dat : List Nat) (mime : String) (n : Nat),
      env.prep = Except.ok (dat, mime) → env.timedOut = false →
      env.response.status = ResponseStatus.success →
      env.response.compressedSize = some n → imageFile.originalSize ≤ n →
      ∃ p : ℤ, (compressFileWithWorker imageFile settings env).percentSaved = some p ∧
        p ≤ 0) := by
  refine ⟨calculatePercentSaved_nonneg o c, calculatePercentSaved_nonpos o c, ?_⟩
  intro imageFile settings env dat mime n hp ht hs hn hon
  refine ⟨calculatePercentSaved imageFile.originalSize n, ?_, ?_⟩
  · rw [compressFileWithWorker_success imageFile settings env dat mime hp ht hs]
    simp [hn]
  · exact calculatePercentSaved_nonpos imageFile.originalSize n hon

/-- Witness for the amended C9: shrinking 1000 bytes to 500 gives a
nonnegative percent, and a done item enlarging 1000 bytes to 2000 carries
a nonpositive percent. -/
theorem c9_percent_saved_sign_witness :
    0 ≤ calculatePercentSaved 1000 500 ∧
    (∃ p : ℤ, (compressFileWithWorker
        ⟨"f2", some "blob", "pic.png", 1000, FileStatus.pending, none, none, none, none⟩
        ⟨80, OutputFormat.jpeg, none⟩
        ⟨Except.ok ([0], "image/png"),
         ⟨"f2", ResponseStatus.success, some [1], 1, some 2000, none⟩, false⟩).percentSaved =
        some p ∧ p ≤ 0) :=
  ⟨(c9_percent_saved_sign 1000 500).1 (by decide),
   (c9_percent_saved_sign 1000 2000).2.2
     ⟨"f2", some "blob", "pic.png", 1000, FileStatus.pending, none, none, none, none⟩
     ⟨80, OutputFormat.jpeg, none⟩
     ⟨Except.ok ([0], "image/png"),
      ⟨"f2", ResponseStatus.success, some [1], 1, some 2000, none⟩, false⟩
     [0] "image/png" 2000 rfl rfl rfl rfl (by decide)⟩

/-! ## Claim C10 (confirmed): compress before init -/

/-- C10: a compress message handled while the WASM base URL is still unset
is answered by exactly one result message echoing the request id, with
status error and originalSize the byte length of the request payload; the
handler returns normally and its output does not depend on the codec
capability at all (compression is never attempted). -/
theorem c10_uninitialized_worker
    (codec codec₂ : CompressionRequest → Except String (List Nat))
    (st : WorkerState) (payload : CompressionRequest) (h : st.wasmBaseUrl = "") :
    handleMessage codec st (WorkerMessage.compress payload) =
      (st, [WorkerResponse.result
        { id := payload.id
          status := ResponseStatus.error
          compressedData := none
          originalSize := payload.imageData.length
          compressedSize := none
          error := some "Worker not initialized. Please refresh the page." }]) ∧
    handleMessage codec st (WorkerMessage.compress payload) =
      handleMessage codec₂ st (WorkerMessage.compress payload) := by
  constructor <;> simp [handleMessage, h]

/-- Witness for C10: a concrete fresh worker, a concrete payload, and two
codecs that disagree everywhere. -/
theorem c10_uninitialized_worker_witness :
    handleMessage (fun _ => Except.error "no codec") ⟨""⟩
        (WorkerMessage.compress ⟨"t1", [5, 6, 7], "a.png", "image/png",
          ⟨80, OutputFormat.webp, none⟩⟩) =
      (⟨""⟩, [WorkerResponse.result
        { id := "t1"
          status := ResponseStatus.error
          compressedData := none
          originalSize := 3
          compressedSize := none
          error := some "Worker not initialized. Please refresh the page." }]) ∧
    handleMessage (fun _ => Except.error "no codec") ⟨""⟩
        (WorkerMessage.compress ⟨"t1", [5, 6, 7], "a.png", "image/png",
          ⟨80, OutputFormat.webp, none⟩⟩) =
      handleMessage (fun r => Except.ok r.imageData) ⟨""⟩
        (WorkerMessage.compress ⟨"t1", [5, 6, 7], "a.png", "image/png",
          ⟨80, OutputFormat.webp, none⟩⟩) :=
  c10_uninitialized_worker (fun _ => Except.error "no codec")
    (fun r => Except.ok r.imageData) ⟨""⟩
    ⟨"t1", [5, 6, 7], "a.png", "image/png", ⟨80, OutputFormat.webp, none⟩⟩ rfl

/-! ## Claim C3 (confirmed): batch isolation and ordering -/

/-- C3: for every input array and every mix of per-item successes and
failures, compressFiles resolves with an array of the same length and
order as the input, element i is the per-item pipeline result of input
item i (so it carries the id of input item i), and every element has
terminal status done or error. -/
theorem c3_batch_isolation (files : List ImageFile)
    (settings : CompressionSettings) (envs : List ItemEnv)
    (h : envs.length = files.length) :
    (compressFiles files settings envs).length = files.length ∧
    (∀ (i : Nat) (f : ImageFile) (e : ItemEnv), files[i]? = some f →
      envs[i]? = some e →
      (compressFiles files settings envs)[i]? =
        some (compressFileWithWorker f settings e)) ∧
    (∀ (f : ImageFile) (s : CompressionSettings) (e : ItemEnv),
      (compressFileWithWorker f s e).id = f.id) ∧
    (∀ r ∈ compressFiles files settings envs,
      r.status = FileStatus.done ∨ r.status = FileStatus.error) := by
  refine ⟨?_, ?_, ?_, ?_⟩
  · simp [compressFiles, List.length_zip, h]
  · intro i f e hf he
    have hz : (files.zip envs)[i]? = some (f, e) := by
      rw [List.getElem?_zip_eq_some]
      exact ⟨hf, he⟩
    simp [compressFiles, List.getElem?_map, hz]
  · intro f s e
    exact compressFileWithWorker_id f s e
  · intro r hr
    simp only [compressFiles, List.mem_map] at hr
    obtain ⟨fe, _, hfe⟩ := hr
    rw [← hfe]
    exact compressFileWithWorker_terminal fe.1 settings fe.2

/-- Witness for C3 on a concrete two-item batch in which the first item
fails preparation and the second succeeds. -/
theorem c3_batch_isolation_witness :
    (compressFiles
        [⟨"a", some "ba", "a.png", 10, FileStatus.pending, none, none, none, none⟩,
         ⟨"b", some "bb", "b.png", 20, FileStatus.pending, none, none, none, none⟩]
        ⟨80, OutputFormat.jpeg, none⟩
        [⟨Except.error "boom", ⟨"a", ResponseStatus.error, none, 0, none, none⟩, false⟩,
         ⟨Except.ok ([1], "image/png"),
          ⟨"b", ResponseStatus.success, some [2], 1, some 8, none⟩, false⟩]).length = 2 ∧
    (∀ r ∈ compressFiles
        [⟨"a", some "ba", "a.png", 10, FileStatus.pending, none, none, none, none⟩,
         ⟨"b", some "bb", "b.png", 20, FileStatus.pending, none, none, none, none⟩]
        ⟨80, OutputFormat.jpeg, none⟩
        [⟨Except.error "boom", ⟨"a", ResponseStatus.error, none, 0, none, none⟩, false⟩,
         ⟨Except.ok ([1], "image/png"),
          ⟨"b", ResponseStatus.success, some [2], 1, some 8, none⟩, false⟩],
      r.status = FileStatus.done ∨ r.status = FileStatus.error) := by
  have h := c3_batch_isolation
    [⟨"a", some "ba", "a.png", 10, FileStatus.pending, none, none, none, none⟩,
     ⟨"b", some "bb", "b.png", 20, FileStatus.pending, none, none, none, none⟩]
    ⟨80, OutputFormat.jpeg, none⟩
    [⟨Except.error "boom", ⟨"a", ResponseStatus.error, none, 0, none, none⟩, false⟩,
     ⟨Except.ok ([1], "image/png"),
      ⟨"b", ResponseStatus.success, some [2], 1, some 8, none⟩, false⟩]
    rfl
  exact ⟨h.1, h.2.2.2⟩

/-! ## Claim C6 (confirmed): per-item timeout -/

/-- C6: when the 60 second deadline fires before the pool result, the item
reaches terminal status error with the timeout message, through exactly
the same catch path as a compression error (same markError shape, original
metadata and source file preserved for retry), and an item of the same
batch whose environment completes normally still reaches done. -/
theorem c6_timeout_isolation (imageFile : ImageFile)
    (settings : CompressionSettings) (env : ItemEnv) (dat : List Nat) (mime : String)
    (hp : env.prep = Except.ok (dat, mime)) (ht : env.timedOut = true) :
    compressFileWithWorker imageFile settings env = markError imageFile timeoutMessage ∧
    (compressFileWithWorker imageFile settings env).status = FileStatus.error ∧
    (compressFileWithWorker imageFile settings env).error = some timeoutMessage ∧
    timeoutMessage = "Compression timed out after 60 seconds" ∧
    (compressFileWithWorker imageFile settings env).file = imageFile.file ∧
    (compressFileWithWorker imageFile settings env).id = imageFile.id ∧
    (∀ env₂ : ItemEnv, env₂.timedOut = false → env₂.prep = Except.ok (dat, mime) →
      env₂.response.status = ResponseStatus.error →
      compressFileWithWorker imageFile settings env₂ =
        markError imageFile (jsOrString env₂.response.error "Compression failed")) ∧
    (∀ (files : List ImageFile) (envs : List ItemEnv) (j : Nat) (g : ImageFile)
        (e : ItemEnv) (d₂ : List Nat) (m₂ : String),
      files[j]? = some g → envs[j]? = some e → e.prep = Except.ok (d₂, m₂) →
      e.timedOut = false → e.response.status = ResponseStatus.success →
      ∃ r, (compressFiles files settings envs)[j]? = some r ∧
        r.status = FileStatus.done) := by
  have hmain := compressFileWithWorker_timeout imageFile settings env dat mime hp ht
  refine ⟨hmain, by rw [hmain]; rfl, by rw [hmain]; rfl, rfl, by rw [hmain]; rfl,
    compressFileWithWorker_id imageFile settings env, ?_, ?_⟩
  · intro env₂ ht₂ hp₂ hs₂
    exact compressFileWithWorker_responseError imageFile settings env₂ dat mime hp₂ ht₂ hs₂
  · intro files envs j g e d₂ m₂ hg he hpe hte hse
    refine ⟨compressFileWithWorker g settings e, ?_, ?_⟩
    · have hz : (files.zip envs)[j]? = some (g, e) := by
        rw [List.getElem?_zip_eq_some]
        exact ⟨hg, he⟩
      simp [compressFiles, List.getElem?_map, hz]
    · rw [compressFileWithWorker_success g settings e d₂ m₂ hpe hte hse]

/-- Witness for C6 on a concrete batch: item 0 stalls past the deadline
and ends in error with the timeout message, item 1 completes normally and
ends done. -/
theorem c6_timeout_isolation_witness :
    (compressFileWithWorker
        ⟨"a", some "ba", "a.png", 10, FileStatus.pending, none, none, none, none⟩
        ⟨80, OutputFormat.jpeg, none⟩
        ⟨Except.ok ([1], "image/png"),
         ⟨"a", ResponseStatus.success, some [2], 1, some 5, none⟩, true⟩).error =
      some timeoutMessage ∧
    timeoutMessage = "Compression timed out after 60 seconds" ∧
    (∃ r, (compressFiles
        [⟨"a", some "ba", "a.png", 10, FileStatus.pending, none, none, none, none⟩,
         ⟨"b", some "bb", "b.png", 20, FileStatus.pending, none, none, none, none⟩]
        ⟨80, OutputFormat.jpeg, none⟩
        [⟨Except.ok ([1], "image/png"),
          ⟨"a", ResponseStatus.success, some [2], 1, some 5, none⟩, true⟩,
         ⟨Except.ok ([3], "image/png"),
          ⟨"b", ResponseStatus.success, some [4], 1, some 9, none⟩, false⟩])[1]? = some r ∧
      r.status = FileStatus.done) := by
  have h := c6_timeout_isolation
    ⟨"a", some "ba", "a.png", 10, FileStatus.pending, none, none, none, none⟩
    ⟨80, OutputFormat.jpeg, none⟩
    ⟨Except.ok ([1], "image/png"),
     ⟨"a", ResponseStatus.success, some [2], 1, some 5, none⟩, true⟩
    [1] "image/png" rfl rfl
  refine ⟨h.2.2.1, h.2.2.2.1, ?_⟩
  exact h.2.2.2.2.2.2.2
    [⟨"a", some "ba", "a.png", 10, FileStatus.pending, none, none, none, none⟩,
     ⟨"b", some "bb", "b.png", 20, FileStatus.pending, none, none, none, none⟩]
    [⟨Except.ok ([1], "image/png"),
      ⟨"a", ResponseStatus.success, some [2], 1, some 5, none⟩, true⟩,
     ⟨Except.ok ([3], "image/png"),
      ⟨"b", ResponseStatus.success, some [4], 1, some 9, none⟩, false⟩]
    1
    ⟨"b", some "bb", "b.png", 20, FileStatus.pending, none, none, none, none⟩
    ⟨Except.ok ([3], "image/png"),
     ⟨"b", ResponseStatus.success, some [4], 1, some 9, none⟩, false⟩
    [3] "image/png" rfl rfl rfl rfl rfl

/-! ## Claim C4 (confirmed): semaphore FIFO fairness -/

theorem semInv_reachable (k : Nat) (s : AsyncSemaphore)
    (h : SemReachable k s) : SemInv k s := by
  induction h with
  | init => exact ⟨rfl, List.Pairwise.nil, by simp, by simp⟩
  | @acquire s hr ih =>
    obtain ⟨hsum, hpw, hbound, hempty⟩ := ih
    unfold semAcquire
    by_cases hp : s.permits > 0
    · rw [if_pos hp]
      refine ⟨?_, hpw, ?_, ?_⟩
      · simp only [List.length_append, List.length_cons, List.length_nil]
        omega
      · intro t htq
        exact Nat.lt_succ_of_lt (hbound t htq)
      · intro hne
        exact absurd (hempty hne) (by omega)
    · rw [if_neg hp]
      have hp0 : s.permits = 0 := by omega
      refine ⟨by simpa using hsum, ?_, ?_, ?_⟩
      · refine List.pairwise_append.mpr ⟨hpw, List.pairwise_singleton _ _, ?_⟩
        intro a ha b hb
        rw [List.mem_singleton] at hb
        subst hb
        exact hbound a ha
      · intro t htq
        rcases List.mem_append.mp htq with hl | hrr
        · exact Nat.lt_succ_of_lt (hbound t hl)
        · rw [List.mem_singleton] at hrr
          subst hrr
          exact Nat.lt_succ_self _
      · intro _
        simpa using hp0
  | @release s hld hr hmem ih =>
    obtain ⟨hsum, hpw, hbound, hempty⟩ := ih
    have hlen : 1 ≤ s.holders.length :=
      List.length_pos.mpr (List.ne_nil_of_mem hmem)
    unfold semRelease
    cases hq : s.waitQueue with
    | cons next rest =>
      have hperm : s.permits = 0 := hempty (by rw [hq]; simp)
      rw [hq] at hpw hbound
      refine ⟨?_, hpw.of_cons, ?_, ?_⟩
      · simp only [List.length_append, List.length_cons, List.length_nil,
          List.length_erase_of_mem hmem]
        omega
      · intro t ht
        exact hbound t (List.mem_cons_of_mem _ ht)
      · intro _
        exact hperm
    | nil =>
      refine ⟨?_, by simp, by simp, by simp⟩
      simp only [List.length_erase_of_mem hmem]
      omega

/-- C4: in every reachable semaphore state at most k acquirers hold
permits (the counter and the holders always account for exactly k), the
wait queue lists blocked acquirers in strictly increasing arrival order
and is nonempty only while the counter is exhausted; release with waiters
present leaves the counter untouched and hands the permit directly to the
longest-waiting (minimal-ticket) waiter, and an acquire arriving while
waiters are queued joins the tail of the queue, so it can never overtake
an older waiter. -/
theorem c4_semaphore_fifo (k : Nat) (s : AsyncSemaphore)
    (h : SemReachable k s) :
    s.holders.length ≤ k ∧
    s.permits + s.holders.length = k ∧
    List.Pairwise (· < ·) s.waitQueue ∧
    (s.waitQueue ≠ [] → s.permits = 0) ∧
    (∀ w rest hld, s.waitQueue = w :: rest →
      (semRelease s hld).permits = s.permits ∧
      (semRelease s hld).waitQueue = rest ∧
      w ∈ (semRelease s hld).holders ∧
      (∀ t ∈ rest, w < t)) ∧
    (s.waitQueue ≠ [] →
      (semAcquire s).waitQueue = s.waitQueue ++ [s.nextTicket]) := by
  obtain ⟨hsum, hpw, hbound, hempty⟩ := semInv_reachable k s h
  refine ⟨by omega, hsum, hpw, hempty, ?_, ?_⟩
  · intro w rest hld hq
    rw [hq] at hpw
    unfold semRelease
    rw [hq]
    refine ⟨rfl, rfl, ?_, ?_⟩
    · exact List.mem_append.mpr (Or.inr (List.mem_singleton.mpr rfl))
    · intro t ht
      exact (List.pairwise_cons.mp hpw).1 t ht
  · intro hne
    have hp0 : s.permits = 0 := hempty hne
    unfold semAcquire
    rw [if_neg (by omega)]

/-- Witness for C4: with one permit, two acquire calls lead to the state
holding one permit holder and one queued waiter; the invariant and the
tail-join step fact hold there. -/
theorem c4_semaphore_fifo_witness :
    (⟨0, [1], [0], 2⟩ : AsyncSemaphore).holders.length ≤ 1 ∧
    ((⟨0, [1], [0], 2⟩ : AsyncSemaphore).waitQueue ≠ [] →
      (semAcquire ⟨0, [1], [0], 2⟩).waitQueue = [1] ++ [2]) := by
  have h := c4_semaphore_fifo 1 ⟨0, [1], [0], 2⟩
    (SemReachable.acquire (SemReachable.acquire SemReachable.init))
  exact ⟨h.1, h.2.2.2.2.2⟩

/-! ## Claim C5 (corrected): initialize idempotence -/

/-- C5 counterexample: for a pool configured with 2 contexts, two
initialize calls that both start before the first completes each pass the
isInitialized guard (the flag is only raised after the await) and each
spawn 2 contexts: the reachable final state records 4 created contexts,
not the configured 2 — the second call did not return the same in-flight
initialization. -/
theorem c5_counterexample :
    InitReachable 2 ⟨true, 0, 4, 4, 2⟩ ∧
    (⟨true, 0, 4, 4, 2⟩ : PoolInitState).createdContexts = 4 ∧ (4 : Nat) ≠ 2 := by
  refine ⟨?_, rfl, by decide⟩
  have h0 : InitReachable 2 ⟨false, 0, 0, 0, 0⟩ := InitReachable.init
  have h1 := InitReachable.callStart h0
  have h2 := InitReachable.callStart h1
  have h3 := InitReachable.handshake h2 (by decide)
  have h4 := InitReachable.handshake h3 (by decide)
  have h5 := InitReachable.handshake h4 (by decide)
  have h6 := InitReachable.handshake h5 (by decide)
  have h7 := InitReachable.callFinish h6 (by decide) (by decide)
  have h8 := InitReachable.callFinish h7 (by decide) (by decide)
  exact h8

theorem initSeqInv_reachable (N : Nat) (s : PoolInitState)
    (h : InitReachableSeq N s) : InitSeqInv N s := by
  induction h with
  | init => exact ⟨by decide, fun _ => ⟨by simp, rfl⟩, by simp, by decide⟩
  | @callStart s hr hpend ih =>
    obtain ⟨hp1, hninit, hinit, hready⟩ := ih
    unfold initStep
    by_cases hi : s.isInitialized
    · rw [if_pos hi]
      exact ⟨hp1, hninit, hinit, hready⟩
    · rw [if_neg hi]
      rw [Bool.not_eq_true] at hi
      obtain ⟨hcreated, havail⟩ := hninit hi
      refine ⟨by show s.pendingCalls + 1 ≤ 1; omega, ?_, ?_, ?_⟩
      · intro _
        constructor
        · show s.createdContexts + N = N * (s.pendingCalls + 1)
          rw [hcreated, hpend]
          ring
        · exact havail
      · intro hcontra
        exact absurd hcontra (by simpa using hi)
      · show s.readyContexts ≤ s.createdContexts + N
        omega
  | @handshake s hr hlt ih =>
    obtain ⟨hp1, hninit, hinit, hready⟩ := ih
    refine ⟨hp1, ?_, ?_, ?_⟩
    · intro hi
      exact hninit hi
    · intro hi
      obtain ⟨-, -, -, heq⟩ := hinit hi
      exact absurd hlt (by omega)
    · show s.readyContexts + 1 ≤ s.createdContexts
      omega
  | @callFinish s hr hpos heq ih =>
    obtain ⟨hp1, hninit, hinit, hready⟩ := ih
    have hi : s.isInitialized = false := by
      by_contra hcon
      rw [Bool.not_eq_false] at hcon
      exact absurd hpos (by simp [(hinit hcon).1])
    obtain ⟨hcreated, -⟩ := hninit hi
    have hpend1 : s.pendingCalls = 1 := by omega
    refine ⟨by show s.pendingCalls - 1 ≤ 1; omega,
      by intro hcon; exact Bool.noConfusion hcon, ?_,
      by show s.readyContexts ≤ s.createdContexts; exact hready⟩
    intro _
    refine ⟨by show s.pendingCalls - 1 = 0; omega, ?_, rfl, ?_⟩
    · show s.createdContexts = N
      rw [hcreated, hpend1]
      ring
    · show s.readyContexts = s.createdContexts
      exact heq

/-- C5 (amended): a call to initialize made after a completed
initialization is a no-op (the flag short-circuits it, no contexts are
spawned), and under sequential, non-overlapping calls the pool creates at
most N contexts, exactly N once initialized, with contexts counted into
the available set only after their ready handshake; but a call overlapping
an in-flight initialization spawns N further contexts (see the
counterexample), so the idempotence claimed for concurrent calls fails. -/
theorem c5_initialize_sequential (N : Nat) (s : PoolInitState)
    (h : InitReachableSeq N s) :
    s.createdContexts ≤ N ∧
    s.availableCount ≤ s.readyContexts ∧
    (s.isInitialized = true → s.createdContexts = N ∧ s.availableCount = N) ∧
    (s.isInitialized = true → initStep N s InitEvent.callStart = s) := by
  obtain ⟨hp1, hninit, hinit, hready⟩ := initSeqInv_reachable N s h
  refine ⟨?_, ?_, ?_, ?_⟩
  · by_cases hi : s.isInitialized
    · exact Nat.le_of_eq (hinit hi).2.1
    · rw [Bool.not_eq_true] at hi
      have := (hninit hi).1
      have := hp1
      calc s.createdContexts = N * s.pendingCalls := (hninit hi).1
        _ ≤ N * 1 := Nat.mul_le_mul_left N hp1
        _ = N := Nat.mul_one N
  · by_cases hi : s.isInitialized
    · obtain ⟨-, hc, ha, hr⟩ := hinit hi
      omega
    · rw [Bool.not_eq_true] at hi
      rw [(hninit hi).2]
      omega
  · intro hi
    exact ⟨(hinit hi).2.1, (hinit hi).2.2.1⟩
  · intro hi
    unfold initStep
    rw [if_pos hi]

/-- Witness for the amended C5: one full sequential initialization with
N = 2, after which a further callStart changes nothing. -/
theorem c5_initialize_sequential_witness :
    (⟨true, 0, 2, 2, 2⟩ : PoolInitState).createdContexts ≤ 2 ∧
    ((⟨true, 0, 2, 2, 2⟩ : PoolInitState).isInitialized = true →
      initStep 2 ⟨true, 0, 2, 2, 2⟩ InitEvent.callStart = ⟨true, 0, 2, 2, 2⟩) := by
  have hreach : InitReachableSeq 2 ⟨true, 0, 2, 2, 2⟩ := by
    have h0 : InitReachableSeq 2 ⟨false, 0, 0, 0, 0⟩ := InitReachableSeq.init
    have h1 := InitReachableSeq.callStart h0 (by decide)
    have h2 := InitReachableSeq.handshake h1 (by decide)
    have h3 := InitReachableSeq.handshake h2 (by decide)
    have h4 := InitReachableSeq.callFinish h3 (by decide) (by decide)
    exact h4
  have h := c5_initialize_sequential 2 ⟨true, 0, 2, 2, 2⟩ hreach
  exact ⟨h.1, h.2.2.2⟩

/-! ## Pool bookkeeping lemmas -/

theorem processNextTask_nil (p : PoolState) (hq : p.taskQueue = []) :
    processNextTask p = p := by
  unfold processNextTask
  rw [hq]
  cases p.availableWorkers.getLast? <;> rfl

theorem processNextTask_noWorker (p : PoolState)
    (hw : p.availableWorkers.getLast? = none) : processNextTask p = p := by
  unfold processNextTask
  rw [hw]
  cases p.taskQueue <;> rfl

theorem processNextTask_dispatch (p : PoolState) (task : QueuedTask)
    (rest : List QueuedTask) (worker : Nat)
    (hq : p.taskQueue = task :: rest)
    (hw : p.availableWorkers.getLast? = some worker) :
    processNextTask p =
      { p with
        availableWorkers := p.availableWorkers.dropLast
        taskQueue := rest
        pendingTasks := mapSet p.pendingTasks task.request.id (worker, task.callback) } := by
  unfold processNextTask
  rw [hq, hw]

theorem processNextTask_submitted (p : PoolState) :
    (processNextTask p).submitted = p.submitted := by
  unfold processNextTask
  cases p.taskQueue <;> cases p.availableWorkers.getLast? <;> rfl

theorem handleWorkerMessage_submitted (p : PoolState) (worker : Nat)
    (message : CompressionResponse) :
    (handleWorkerMessage p worker message).submitted = p.submitted := by
  unfold handleWorkerMessage
  cases mapGet p.pendingTasks message.id <;> simp [processNextTask_submitted]

theorem mapSet_of_not_mem (m : List (String × Nat × Nat)) (key : String)
    (v : Nat × Nat) (h : ∀ e ∈ m, e.1 ≠ key) :
    mapSet m key v = m ++ [(key, v)] := by
  have hany : m.any (fun e => e.1 == key) = false := by
    rw [List.any_eq_false]
    intro e he
    simpa using h e he
  unfold mapSet
  rw [hany]
  rfl

theorem find?_eraseP_split (q : (String × Nat × Nat) → Bool)
    (l : List (String × Nat × Nat)) (a : String × Nat × Nat)
    (h : l.find? q = some a) :
    ∃ l₁ l₂, l = l₁ ++ a :: l₂ ∧ l.eraseP q = l₁ ++ l₂ ∧
      ∀ b ∈ l₁, q b = false := by
  induction l with
  | nil => simp at h
  | cons c l ih =>
    by_cases hc : q c
    · rw [List.find?_cons_of_pos _ hc] at h
      obtain rfl : c = a := by injection h
      exact ⟨[], l, rfl, List.eraseP_cons_of_pos hc, by simp⟩
    · rw [List.find?_cons_of_neg _ hc] at h
      obtain ⟨l₁, l₂, heq, herase, hall⟩ := ih h
      refine ⟨c :: l₁, l₂, by rw [heq, List.cons_append], ?_, ?_⟩
      · rw [List.eraseP_cons_of_neg hc, herase, List.cons_append]
      · intro b hb
        rcases List.mem_cons.mp hb with rfl | hbl
        · exact Bool.not_eq_true (q b) ▸ hc
        · exact hall b hbl

theorem perm_enqueue (a b c : List Nat) (n : Nat) :
    List.Perm ((a ++ [n]) ++ b ++ c) ((a ++ b ++ c) ++ [n]) := by
  rw [List.perm_iff_count]
  intro x
  by_cases hx : x = n <;>
    simp [List.count_append, hx] <;> omega

theorem perm_dispatch (q r d : List Nat) (n : Nat) :
    List.Perm (q ++ (r ++ [n]) ++ d) ((n :: q) ++ r ++ d) := by
  rw [List.perm_iff_count]
  intro x
  by_cases hx : x = n <;>
    simp [List.count_append, List.count_cons, hx] <;> omega

theorem perm_complete (q r₁ r₂ d : List Nat) (n : Nat) :
    List.Perm (q ++ (r₁ ++ r₂) ++ (d ++ [n])) (q ++ (r₁ ++ n :: r₂) ++ d) := by
  rw [List.perm_iff_count]
  intro x
  by_cases hx : x = n <;>
    simp [List.count_append, List.count_cons, hx] <;> omega

theorem poolInv_processNextTask (workers : List Nat) (p : PoolState)
    (hn : p.submitted.Nodup) (inv : PoolInv workers p) :
    PoolInv workers (processNextTask p) := by
  rcases hq : p.taskQueue with _ | ⟨task, rest⟩
  · rw [processNextTask_nil p hq]
    exact inv
  · rcases hw : p.availableWorkers.getLast? with _ | worker
    · rw [processNextTask_noWorker p hw]
      exact inv
    · have htask : task ∈ p.taskQueue := by
        rw [hq]
        exact List.mem_cons_self task rest
      have htaskId : p.submitted[task.callback]? = some task.request.id :=
        inv.queueIds task htask
      have havail : p.availableWorkers.dropLast ++ [worker] = p.availableWorkers :=
        List.dropLast_append_getLast? worker (Option.mem_def.mpr hw)
      have hwmem : worker ∈ p.availableWorkers := by
        rw [← havail]
        exact List.mem_append.mpr (Or.inr (List.mem_singleton.mpr rfl))
      have hwnotdl : worker ∉ p.availableWorkers.dropLast := by
        have hnd : (p.availableWorkers.dropLast ++ [worker]).Nodup := by
          rw [havail]
          exact inv.availNodup
        intro hmem
        exact (List.disjoint_of_nodup_append hnd) hmem (List.mem_singleton.mpr rfl)
      have hbookedNodup : (bookedCallbacks p).Nodup :=
        inv.perm.symm.nodup (List.nodup_range p.submitted.length)
      have hfresh : ∀ e ∈ p.pendingTasks, e.1 ≠ task.request.id := by
        intro e he hkey
        have heid : p.submitted[e.2.2]? = some e.1 := inv.pendingIds e he
        have hlt : e.2.2 < p.submitted.length := (List.getElem?_eq_some.mp heid).1
        have hcb : e.2.2 = task.callback :=
          List.getElem?_inj hlt hn (by rw [heid, hkey, htaskId])
        have h1 : 0 < (p.taskQueue.map (fun t => t.callback)).count task.callback :=
          List.count_pos_iff.mpr (List.mem_map.mpr ⟨task, htask, rfl⟩)
        have h2 : 0 < (p.pendingTasks.map (fun e₂ => e₂.2.2)).count task.callback :=
          List.count_pos_iff.mpr (List.mem_map.mpr ⟨e, he, hcb⟩)
        have h3 : (bookedCallbacks p).count task.callback ≤ 1 :=
          List.nodup_iff_count_le_one.mp hbookedNodup task.callback
        rw [bookedCallbacks, List.count_append, List.count_append] at h3
        omega
      rw [processNextTask_dispatch p task rest worker hq hw,
        mapSet_of_not_mem p.pendingTasks task.request.id (worker, task.callback) hfresh]
      refine ⟨?_, ?_, ?_, ?_, ?_, ?_, ?_, ?_, ?_⟩
      · have e1 : bookedCallbacks
            { p with
              availableWorkers := p.availableWorkers.dropLast
              taskQueue := rest
              pendingTasks := p.pendingTasks ++ [(task.request.id, worker, task.callback)] } =
            rest.map (fun t => t.callback) ++
              (p.pendingTasks.map (fun e => e.2.2) ++ [task.callback]) ++
              p.delivered.map (fun d => d.1) := by
          simp [bookedCallbacks]
        have e2 : bookedCallbacks p =
            (task.callback :: rest.map (fun t => t.callback)) ++
              p.pendingTasks.map (fun e => e.2.2) ++
              p.delivered.map (fun d => d.1) := by
          simp [bookedCallbacks, hq]
        rw [e1]
        refine (perm_dispatch _ _ _ _).trans ?_
        rw [← e2]
        exact inv.perm
      · intro t ht
        exact inv.queueIds t (by rw [hq]; exact List.mem_cons_of_mem task ht)
      · intro e he
        rcases List.mem_append.mp he with h1 | h2
        · exact inv.pendingIds e h1
        · rw [List.mem_singleton] at h2
          subst h2
          exact htaskId
      · intro d hd
        exact inv.deliveredIds d hd
      · intro w hwdl
        exact inv.availMem w ((List.dropLast_sublist p.availableWorkers).subset hwdl)
      · intro e he
        rcases List.mem_append.mp he with h1 | h2
        · exact inv.pendingMem e h1
        · rw [List.mem_singleton] at h2
          subst h2
          exact inv.availMem worker hwmem
      · exact inv.availNodup.sublist (List.dropLast_sublist p.availableWorkers)
      · rw [List.map_append]
        refine List.nodup_append.mpr ⟨inv.pendingWorkersNodup, by simp, ?_⟩
        intro a ha hb
        obtain ⟨e, he, hea⟩ := List.mem_map.mp ha
        exact inv.disjoint worker hwmem e he (hea.trans (by simpa using hb))
      · intro w hwdl e he
        rcases List.mem_append.mp he with h1 | h2
        · exact inv.disjoint w ((List.dropLast_sublist p.availableWorkers).subset hwdl) e h1
        · rw [List.mem_singleton] at h2
          subst h2
          intro hcontra
          have hww : worker = w := hcontra
          exact hwnotdl (hww ▸ hwdl)

theorem poolInv_compress (workers : List Nat) (p : PoolState)
    (request : CompressionRequest)
    (hn : (p.submitted ++ [request.id]).Nodup) (inv : PoolInv workers p) :
    PoolInv workers (compress p request) := by
  unfold compress
  apply poolInv_processNextTask
  · exact hn
  · refine ⟨?_, ?_, ?_, ?_, ?_, ?_, ?_, ?_, ?_⟩
    · show List.Perm
        (bookedCallbacks
          { p with
            taskQueue := p.taskQueue ++ [⟨request, p.submitted.length⟩]
            submitted := p.submitted ++ [request.id] })
        (List.range (p.submitted ++ [request.id]).length)
      have e1 : bookedCallbacks
          { p with
            taskQueue := p.taskQueue ++ [⟨request, p.submitted.length⟩]
            submitted := p.submitted ++ [request.id] } =
          (p.taskQueue.map (fun t => t.callback) ++ [p.submitted.length]) ++
            p.pendingTasks.map (fun e => e.2.2) ++
            p.delivered.map (fun d => d.1) := by
        simp [bookedCallbacks]
      have e2 : List.range (p.submitted ++ [request.id]).length =
          List.range p.submitted.length ++ [p.submitted.length] := by
        rw [List.length_append, List.length_cons, List.length_nil, List.range_succ]
      rw [e1, e2]
      refine (perm_enqueue _ _ _ _).trans ?_
      exact inv.perm.append_right _
    · intro t ht
      show (p.submitted ++ [request.id])[t.callback]? = some t.request.id
      rcases List.mem_append.mp ht with h1 | h2
      · have h0 := inv.queueIds t h1
        have hlt : t.callback < p.submitted.length := (List.getElem?_eq_some.mp h0).1
        rw [List.getElem?_append_left hlt]
        exact h0
      · rw [List.mem_singleton] at h2
        subst h2
        exact List.getElem?_concat_length p.submitted request.id
    · intro e he
      show (p.submitted ++ [request.id])[e.2.2]? = some e.1
      have h0 := inv.pendingIds e he
      have hlt : e.2.2 < p.submitted.length := (List.getElem?_eq_some.mp h0).1
      rw [List.getElem?_append_left hlt]
      exact h0
    · intro d hd
      show (p.submitted ++ [request.id])[d.1]? = some d.2.id
      have h0 := inv.deliveredIds d hd
      have hlt : d.1 < p.submitted.length := (List.getElem?_eq_some.mp h0).1
      rw [List.getElem?_append_left hlt]
      exact h0
    · exact inv.availMem
    · exact inv.pendingMem
    · exact inv.availNodup
    · exact inv.pendingWorkersNodup
    · exact inv.disjoint

theorem poolInv_handleWorkerMessage (workers : List Nat) (p : PoolState)
    (worker cb : Nat) (message : CompressionResponse)
    (hn : p.submitted.Nodup)
    (henabled : mapGet p.pendingTasks message.id = some (worker, cb))
    (inv : PoolInv workers p) :
    PoolInv workers (handleWorkerMessage p worker message) := by
  obtain ⟨entry, hfind, hsnd⟩ :
      ∃ e, p.pendingTasks.find? (fun e => e.1 == message.id) = some e ∧
        e.2 = (worker, cb) := by
    unfold mapGet at henabled
    obtain ⟨e, he1, he2⟩ := Option.map_eq_some'.mp henabled
    exact ⟨e, he1, he2⟩
  have hkey : entry.1 = message.id := by
    have h0 := List.find?_some hfind
    simpa using h0
  have hmem : entry ∈ p.pendingTasks := List.mem_of_find?_eq_some hfind
  obtain ⟨l₁, l₂, hsplit, herase, hl₁⟩ := find?_eraseP_split _ _ _ hfind
  have hworker : entry.2.1 = worker := by rw [hsnd]
  have hcb : entry.2.2 = cb := by rw [hsnd]
  have hwmem : worker ∈ workers := hworker ▸ inv.pendingMem entry hmem
  have hcbid : p.submitted[cb]? = some message.id := by
    have h0 := inv.pendingIds entry hmem
    rw [hcb, hkey] at h0
    exact h0
  have hwnotavail : worker ∉ p.availableWorkers := by
    intro hcontra
    exact inv.disjoint worker hcontra entry hmem hworker
  have hwnotrest : ∀ e ∈ l₁ ++ l₂, e.2.1 ≠ worker := by
    have hnd : ((l₁ ++ entry :: l₂).map (fun e => e.2.1)).Nodup := by
      rw [← hsplit]
      exact inv.pendingWorkersNodup
    rw [List.map_append, List.map_cons] at hnd
    have hnd2 := (List.perm_middle).nodup hnd
    have hnotin : entry.2.1 ∉
        l₁.map (fun e => e.2.1) ++ l₂.map (fun e => e.2.1) :=
      (List.nodup_cons.mp hnd2).1
    intro e he heq
    apply hnotin
    rw [← List.map_append]
    exact List.mem_map.mpr ⟨e, he, heq.trans hworker.symm⟩
  have hlift : ∀ e ∈ l₁ ++ l₂, e ∈ p.pendingTasks := by
    intro e he
    rw [hsplit]
    rcases List.mem_append.mp he with h1 | h2
    · exact List.mem_append.mpr (Or.inl h1)
    · exact List.mem_append.mpr (Or.inr (List.mem_cons_of_mem entry h2))
  have herase2 : mapDelete p.pendingTasks message.id = l₁ ++ l₂ := herase
  unfold handleWorkerMessage
  rw [henabled]
  show PoolInv workers (processNextTask
    { p with
      availableWorkers := p.availableWorkers ++ [worker]
      pendingTasks := mapDelete p.pendingTasks message.id
      delivered := p.delivered ++ [(cb, message)] })
  apply poolInv_processNextTask
  · exact hn
  · refine ⟨?_, ?_, ?_, ?_, ?_, ?_, ?_, ?_, ?_⟩
    · show List.Perm
        (bookedCallbacks
          { p with
            availableWorkers := p.availableWorkers ++ [worker]
            pendingTasks := mapDelete p.pendingTasks message.id
            delivered := p.delivered ++ [(cb, message)] })
        (List.range p.submitted.length)
      have e1 : bookedCallbacks
          { p with
            availableWorkers := p.availableWorkers ++ [worker]
            pendingTasks := mapDelete p.pendingTasks message.id
            delivered := p.delivered ++ [(cb, message)] } =
          p.taskQueue.map (fun t => t.callback) ++
            (l₁.map (fun e => e.2.2) ++ l₂.map (fun e => e.2.2)) ++
            (p.delivered.map (fun d => d.1) ++ [cb]) := by
        simp [bookedCallbacks, herase2]
      have e2 : bookedCallbacks p =
          p.taskQueue.map (fun t => t.callback) ++
            (l₁.map (fun e => e.2.2) ++ cb :: l₂.map (fun e => e.2.2)) ++
            p.delivered.map (fun d => d.1) := by
        rw [bookedCallbacks, hsplit]
        simp [hcb]
      rw [e1]
      refine List.Perm.trans (perm_complete _ _ _ _ _) ?_
      rw [← e2]
      exact inv.perm
    · intro t ht
      exact inv.queueIds t ht
    · intro e he
      have he0 : e ∈ mapDelete p.pendingTasks message.id := he
      rw [herase2] at he0
      exact inv.pendingIds e (hlift e he0)
    · intro d hd
      have hd0 : d ∈ p.delivered ++ [(cb, message)] := hd
      rcases List.mem_append.mp hd0 with h1 | h2
      · exact inv.deliveredIds d h1
      · rw [List.mem_singleton] at h2
        subst h2
        exact hcbid
    · intro w hw0
      have hw1 : w ∈ p.availableWorkers ++ [worker] := hw0
      rcases List.mem_append.mp hw1 with h1 | h2
      · exact inv.availMem w h1
      · rw [List.mem_singleton] at h2
        subst h2
        exact hwmem
    · intro e he
      have he0 : e ∈ mapDelete p.pendingTasks message.id := he
      rw [herase2] at he0
      exact inv.pendingMem e (hlift e he0)
    · show (p.availableWorkers ++ [worker]).Nodup
      refine List.nodup_append.mpr ⟨inv.availNodup, by simp, ?_⟩
      intro a ha hb
      rw [List.mem_singleton] at hb
      subst hb
      exact hwnotavail ha
    · show ((mapDelete p.pendingTasks message.id).map (fun e => e.2.1)).Nodup
      rw [herase2]
      have hnd : ((l₁ ++ entry :: l₂).map (fun e => e.2.1)).Nodup := by
        rw [← hsplit]
        exact inv.pendingWorkersNodup
      exact hnd.sublist (((List.sublist_cons_self entry l₂).append_left l₁).map _)
    · intro w hw0 e he0
      have hw1 : w ∈ p.availableWorkers ++ [worker] := hw0
      have he1 : e ∈ mapDelete p.pendingTasks message.id := he0
      rw [herase2] at he1
      rcases List.mem_append.mp hw1 with h1 | h2
      · exact inv.disjoint w h1 e (hlift e he1)
      · rw [List.mem_singleton] at h2
        subst h2
        exact hwnotrest e he1

theorem poolInv_reachable (workers : List Nat) (p : PoolState)
    (h : PoolReachable workers p) (hw : workers.Nodup)
    (hn : p.submitted.Nodup) : PoolInv workers p := by
  induction h with
  | init =>
    refine ⟨?_, ?_, ?_, ?_, ?_, ?_, ?_, ?_, ?_⟩
    · show List.Perm (bookedCallbacks (initPool workers))
        (List.range (initPool workers).submitted.length)
      simp [bookedCallbacks, initPool]
    · intro t ht
      simp [initPool] at ht
    · intro e he
      simp [initPool] at he
    · intro d hd
      simp [initPool] at hd
    · intro w hw0
      exact hw0
    · intro e he
      simp [initPool] at he
    · exact hw
    · simp [initPool]
    · intro w hw0 e he
      simp [initPool] at he
  | @submit p request hr ih =>
    have hsub : (compress p request).submitted = p.submitted ++ [request.id] := by
      unfold compress
      rw [processNextTask_submitted]
    rw [hsub] at hn
    exact poolInv_compress workers p request hn (ih hn.of_append_left)
  | @complete p worker message cb hr henabled ih =>
    rw [handleWorkerMessage_submitted p worker message] at hn
    exact poolInv_handleWorkerMessage workers p worker cb message hn henabled (ih hn)

/-! ## Claim C1 (confirmed): result routing -/

/-- C1: in every pool state reachable under any interleaving of
submissions and completions, with distinct workers and pairwise distinct
request ids (the data model assigns each item a unique id): every logged
resolution hands a callback exactly the response whose id is the request
id of its own submit call; no submit promise is resolved twice; and every
submission that is no longer queued nor in flight has been resolved, with
a response carrying its own request id — so for every completion order
each result message is delivered to the promise created by its own submit
call, exactly once. -/
theorem c1_result_routing (workers : List Nat) (p : PoolState)
    (h : PoolReachable workers p) (hw : workers.Nodup)
    (hn : p.submitted.Nodup) :
    (∀ d ∈ p.delivered, p.submitted[d.1]? = some d.2.id) ∧
    (p.delivered.map (fun d => d.1)).Nodup ∧
    (∀ s, s < p.submitted.length →
      (∀ t ∈ p.taskQueue, t.callback ≠ s) →
      (∀ e ∈ p.pendingTasks, e.2.2 ≠ s) →
      ∃ resp, (s, resp) ∈ p.delivered ∧ p.submitted[s]? = some resp.id) := by
  have inv := poolInv_reachable workers p h hw hn
  have hbookedNodup : (bookedCallbacks p).Nodup :=
    inv.perm.symm.nodup (List.nodup_range p.submitted.length)
  refine ⟨inv.deliveredIds, ?_, ?_⟩
  · rw [bookedCallbacks] at hbookedNodup
    exact hbookedNodup.of_append_right
  · intro s hs hq hp
    have hins : s ∈ List.range p.submitted.length := List.mem_range.mpr hs
    have hinb : s ∈ bookedCallbacks p := inv.perm.mem_iff.mpr hins
    rw [bookedCallbacks] at hinb
    rcases List.mem_append.mp hinb with h1 | h2
    · rcases List.mem_append.mp h1 with h3 | h4
      · obtain ⟨t, ht, hts⟩ := List.mem_map.mp h3
        exact absurd hts (hq t ht)
      · obtain ⟨e, he, hes⟩ := List.mem_map.mp h4
        exact absurd hes (hp e he)
    · obtain ⟨d, hd, hds⟩ := List.mem_map.mp h2
      refine ⟨d.2, ?_, ?_⟩
      · have hds2 : (s, d.2) = d := by rw [← hds]
        exact hds2 ▸ hd
      · have h0 := inv.deliveredIds d hd
        rw [hds] at h0
        exact h0

/-- Witness for C1: one worker, one submitted task, its completion — the
response is delivered to the callback of that submission with its id. -/
theorem c1_result_routing_witness :
    ∃ resp,
      (0, resp) ∈ (handleWorkerMessage
        (compress (initPool [0])
          ⟨"a", [1], "a.png", "image/png", ⟨80, OutputFormat.jpeg, none⟩⟩)
        0 ⟨"a", ResponseStatus.success, some [2], 1, some 1, none⟩).delivered ∧
      (handleWorkerMessage
        (compress (initPool [0])
          ⟨"a", [1], "a.png", "image/png", ⟨80, OutputFormat.jpeg, none⟩⟩)
        0 ⟨"a", ResponseStatus.success, some [2], 1, some 1, none⟩).submitted[0]? =
        some resp.id := by
  have h := c1_result_routing [0] _
    (PoolReachable.complete 0 ⟨"a", ResponseStatus.success, some [2], 1, some 1, none⟩ 0
      (PoolReachable.submit
        ⟨"a", [1], "a.png", "image/png", ⟨80, OutputFormat.jpeg, none⟩⟩
        PoolReachable.init)
      (by decide))
    (by decide) (by decide)
  exact h.2.2 0 (by decide) (by decide) (by decide)

/-! ## Claim C2 (confirmed): pool bookkeeping invariant -/

/-- C2: in every reachable pool state (distinct workers, pairwise distinct
request ids), the available set is disjoint from the set of contexts
executing in-flight tasks, and every submitted task whose result has not
been delivered is bookkept exactly once across the task queue and the
in-flight map. -/
theorem c2_pool_invariant (workers : List Nat) (p : PoolState)
    (h : PoolReachable workers p) (hw : workers.Nodup)
    (hn : p.submitted.Nodup) :
    (∀ w ∈ p.availableWorkers, ∀ e ∈ p.pendingTasks, e.2.1 ≠ w) ∧
    (∀ s, s < p.submitted.length →
      (p.delivered.map (fun d => d.1)).count s = 0 →
      (p.taskQueue.map (fun t => t.callback) ++
        p.pendingTasks.map (fun e => e.2.2)).count s = 1) := by
  have inv := poolInv_reachable workers p h hw hn
  refine ⟨inv.disjoint, ?_⟩
  intro s hs hdel
  have hcount := inv.perm.count_eq s
  rw [bookedCallbacks, List.count_append, List.count_append] at hcount
  have hrange : (List.range p.submitted.length).count s = 1 :=
    List.count_eq_one_of_mem (List.nodup_range p.submitted.length)
      (List.mem_range.mpr hs)
  rw [List.count_append]
  omega

/-- Witness for C2: after one submission to a one-worker pool, the worker
is in flight and not available, and submission 0 is bookkept exactly once
(in the in-flight map). -/
theorem c2_pool_invariant_witness :
    (∀ w ∈ (compress (initPool [0])
        ⟨"a", [1], "a.png", "image/png", ⟨80, OutputFormat.jpeg, none⟩⟩).availableWorkers,
      ∀ e ∈ (compress (initPool [0])
        ⟨"a", [1], "a.png", "image/png", ⟨80, OutputFormat.jpeg, none⟩⟩).pendingTasks,
      e.2.1 ≠ w) ∧
    ((compress (initPool [0])
        ⟨"a", [1], "a.png", "image/png", ⟨80, OutputFormat.jpeg, none⟩⟩).taskQueue.map
          (fun t => t.callback) ++
      (compress (initPool [0])
        ⟨"a", [1], "a.png", "image/png", ⟨80, OutputFormat.jpeg, none⟩⟩).pendingTasks.map
          (fun e => e.2.2)).count 0 = 1 := by
  have h := c2_pool_invariant [0] _
    (PoolReachable.submit
      ⟨"a", [1], "a.png", "image/png", ⟨80, OutputFormat.jpeg, none⟩⟩
      PoolReachable.init)
    (by decide) (by decide)
  exact ⟨h.1, h.2 0 (by decide) (by decide)⟩

end PixelPinch
